import Mathlib

/-!
Shallow embedding of the gamf service (GitHub App Manifest Flow broker).

The embedding covers:
* the in-process ephemeral record store (`memStore` in store.go): a
  mutex-guarded map from string keys to (value, absolute expiry) pairs,
  with lazy expiry checked on access;
* the four HTTP phase handlers (StartHandler, RedirectHandler,
  CallbackHandler, CodeHandler) and the helpers actionURL and token.

Time is modelled as a natural number of time units (the Go code uses
wall-clock instants; only ordering and addition of a TTL matter).
Mutex-serialized concurrent calls are modelled as an arbitrary sequential
interleaving of the atomic critical sections.
-/

/-- Value stored in the in-memory store: the payload string together with
its absolute expiry instant (Go struct `value` in store.go). -/
structure MValue where
  exp : Nat
  val : String
deriving DecidableEq, Repr

/-- The in-memory store map (`memStore.d`), modelled as an association
list; lookup takes the most recent binding, mirroring Go map semantics. -/
abbrev MemStore := List (String × MValue)

/-- Map lookup (`ms.d[key]`). -/
def msLookup : MemStore → String → Option MValue
  | [], _ => none
  | (k, v) :: rest, key => if k = key then some v else msLookup rest key

/-- Map deletion (`delete(ms.d, key)`): removes every binding of the key. -/
def msErase (d : MemStore) (key : String) : MemStore :=
  d.filter (fun p => p.1 ≠ key)

/-- Map assignment (`ms.d[key] = v`): the new binding shadows older ones. -/
def msInsert (d : MemStore) (key : String) (v : MValue) : MemStore :=
  (key, v) :: d

/-- memStore.GetDel: under the mutex, look the key up; absent keys yield
NotFound (redis.Nil, modelled as `none`); a record whose expiry instant is
strictly past is deleted and yields NotFound; otherwise the record is
deleted and its value returned. -/
def GetDel (now : Nat) (d : MemStore) (key : String) : Option String × MemStore :=
  match msLookup d key with
  | none => (none, d)
  | some v =>
    if now > v.exp then (none, msErase d key)
    else (some v.val, msErase d key)

/-- memStore.SetEx: under the mutex, unconditionally install the record
with expiry `now + ttl`. -/
def SetEx (now : Nat) (d : MemStore) (key val : String) (ttl : Nat) : MemStore :=
  msInsert d key { exp := now + ttl, val := val }

/-- A sequence of GetDel calls on one key, each at its own time instant,
applied in mutex order; returns the list of observed results and the final
store. -/
def getDelSeq (times : List Nat) (d : MemStore) (key : String) :
    List (Option String) × MemStore :=
  match times with
  | [] => ([], d)
  | t :: ts =>
    let r := GetDel t d key
    let rest := getDelSeq ts r.2 key
    (r.1 :: rest.1, rest.2)

/-- Number of GetDel observations that saw a value. -/
def countSome (rs : List (Option String)) : Nat :=
  (rs.filter (fun r => r.isSome)).length

theorem msLookup_erase_self (d : MemStore) (key : String) :
    msLookup (msErase d key) key = none := by
  induction d with
  | nil => rfl
  | cons p rest ih =>
    by_cases h : p.1 = key
    · simpa [msErase, List.filter, h] using ih
    · simpa [msErase, List.filter, h, msLookup] using ih

theorem msLookup_erase_ne (d : MemStore) (key k2 : String) (h : k2 ≠ key) :
    msLookup (msErase d key) k2 = msLookup d k2 := by
  induction d with
  | nil => rfl
  | cons p rest ih =>
    by_cases hp : p.1 = key
    · have : p.1 ≠ k2 := by
        intro hcon
        exact h (hcon ▸ hp)
      simp [msErase, List.filter, hp, msLookup, this] at *
      simpa [this] using ih
    · by_cases hk : p.1 = k2
      · simp [msErase, List.filter, hp, msLookup, hk, h]
      · simp [msErase, List.filter, hp, msLookup, hk] at *
        exact ih

theorem msLookup_insert_self (d : MemStore) (key : String) (v : MValue) :
    msLookup (msInsert d key v) key = some v := by
  simp [msInsert, msLookup]

theorem getDel_absent (now : Nat) (d : MemStore) (key : String)
    (h : msLookup d key = none) : GetDel now d key = (none, d) := by
  simp [GetDel, h]

theorem msLookup_getDel_self (now : Nat) (d : MemStore) (key : String) :
    msLookup (GetDel now d key).2 key = none := by
  unfold GetDel
  cases h : msLookup d key with
  | none => simpa using h
  | some v =>
    by_cases he : now > v.exp
    · simpa [he] using msLookup_erase_self d key
    · simpa [he] using msLookup_erase_self d key

theorem msLookup_getDel_ne (now : Nat) (d : MemStore) (key k2 : String)
    (h : k2 ≠ key) : msLookup (GetDel now d key).2 k2 = msLookup d k2 := by
  unfold GetDel
  cases hl : msLookup d key with
  | none => rfl
  | some v =>
    by_cases he : now > v.exp
    · simpa [he] using msLookup_erase_ne d key k2 h
    · simpa [he] using msLookup_erase_ne d key k2 h

theorem getDelSeq_absent (times : List Nat) (d : MemStore) (key : String)
    (h : msLookup d key = none) :
    getDelSeq times d key = (List.replicate times.length none, d) := by
  induction times with
  | nil => rfl
  | cons t ts ih =>
    simp [getDelSeq, getDel_absent t d key h, ih, List.replicate]

theorem filterSome_replicate (n : Nat) :
    (List.replicate n (none : Option String)).filter (fun r => r.isSome) = [] := by
  induction n with
  | zero => rfl
  | succ m ih => simp [List.replicate_succ, List.filter, ih]

theorem getDel_fresh (t0 ttl t : Nat) (d : MemStore) (key val : String)
    (h : t ≤ t0 + ttl) :
    GetDel t (SetEx t0 d key val ttl) key
      = (some val, msErase (SetEx t0 d key val ttl) key) := by
  have hl : msLookup (SetEx t0 d key val ttl) key
      = some { exp := t0 + ttl, val := val } :=
    msLookup_insert_self d key _
  simp [GetDel, hl, Nat.not_lt.mpr h]

/-- C1: a key written via SetEx is redeemed at most once: over any
mutex-serialized interleaving of GetDel calls on one key, at most one call
observes a value; and when the first of N calls happens no later than the
expiry instant, it observes the stored value and the remaining N-1 observe
NotFound. -/
theorem c1_single_redemption :
    (∀ (times : List Nat) (d : MemStore) (key : String),
      countSome (getDelSeq times d key).1 ≤ 1) ∧
    (∀ (t0 ttl t : Nat) (ts : List Nat) (d : MemStore) (key val : String),
      t ≤ t0 + ttl →
      (getDelSeq (t :: ts) (SetEx t0 d key val ttl) key).1
        = some val :: List.replicate ts.length none) := by
  constructor
  · intro times d key
    cases times with
    | nil => simp [getDelSeq, countSome]
    | cons t ts =>
      have habs := msLookup_getDel_self t d key
      have hrest := getDelSeq_absent ts (GetDel t d key).2 key habs
      simp only [getDelSeq, hrest]
      cases h : (GetDel t d key).1 with
      | none => simp [countSome, List.filter, filterSome_replicate]
      | some v => simp [countSome, List.filter, filterSome_replicate]
  · intro t0 ttl t ts d key val h
    have hfst := getDel_fresh t0 ttl t d key val h
    have habs : msLookup (msErase (SetEx t0 d key val ttl) key) key = none :=
      msLookup_erase_self (SetEx t0 d key val ttl) key
    have hrest := getDelSeq_absent ts (msErase (SetEx t0 d key val ttl) key) key habs
    simp [getDelSeq, hfst, hrest]

/-- C1 witness: with a record written at time 0 with TTL 5, three GetDel
calls at times 2, 3, 4 observe the value exactly once. -/
theorem c1_single_redemption_witness :
    countSome (getDelSeq [0] [] "k").1 ≤ 1 ∧
    (getDelSeq [2, 3, 4] (SetEx 0 [] "k" "v" 5) "k").1
      = some "v" :: List.replicate 2 none :=
  ⟨c1_single_redemption.1 [0] [] "k",
    c1_single_redemption.2 0 5 2 [3, 4] [] "k" "v" (by decide)⟩

/-- C2: GetDel on an absent key returns NotFound and leaves the store
unchanged; after a successful GetDel every later GetDel on that key
returns NotFound; and a new SetEx makes the key retrievable again. -/
theorem c2_idempotent_absence :
    (∀ (t : Nat) (d : MemStore) (key : String),
      msLookup d key = none → GetDel t d key = (none, d)) ∧
    (∀ (t : Nat) (d : MemStore) (key v : String),
      (GetDel t d key).1 = some v →
      ∀ (times : List Nat),
        (getDelSeq times (GetDel t d key).2 key).1
          = List.replicate times.length none) ∧
    (∀ (t1 t2 ttl : Nat) (d : MemStore) (key val : String),
      t2 ≤ t1 + ttl →
      (GetDel t2 (SetEx t1 d key val ttl) key).1 = some val) := by
  refine ⟨fun t d key h => getDel_absent t d key h, fun t d key v _ times => ?_,
    fun t1 t2 ttl d key val h => ?_⟩
  · have habs := msLookup_getDel_self t d key
    simpa using congrArg Prod.fst (getDelSeq_absent times (GetDel t d key).2 key habs)
  · simp [getDel_fresh t1 ttl t2 d key val h]

/-- C2 witness: concrete instances of all three conjuncts at small inputs. -/
theorem c2_idempotent_absence_witness :
    GetDel 0 [] "k" = (none, []) ∧
    (getDelSeq [1, 2] (GetDel 0 (SetEx 0 [] "k" "v" 5) "k").2 "k").1
      = List.replicate 2 none ∧
    (GetDel 3 (SetEx 0 [] "k" "v" 5) "k").1 = some "v" :=
  ⟨c2_idempotent_absence.1 0 [] "k" rfl,
    c2_idempotent_absence.2.1 0 (SetEx 0 [] "k" "v" 5) "k" "v" (by decide) [1, 2],
    c2_idempotent_absence.2.2 0 3 5 [] "k" "v" (by decide)⟩

/-- C3 counterexample: a record written at time 0 with TTL 5 is still
returned by GetDel at elapsed time exactly 5 (equal to the TTL), where the
claim requires NotFound at any elapsed time greater than or equal to the
TTL: the expiry check in the code is a strict after-comparison. -/
theorem c3_expiry_counterexample :
    (GetDel 5 (SetEx 0 [] "k" "v" 5) "k").1 = some "v" := by decide

/-- C3 amended: a record written at time t0 with TTL ttl is returned by
GetDel at any time at most t0 + ttl (boundary inclusive, because the code
checks expiry with a strict after-comparison), and at any time strictly
past t0 + ttl GetDel returns NotFound and deletes the expired record. -/
theorem c3_expiry_lazy :
    ∀ (t0 ttl t : Nat) (d : MemStore) (key val : String),
      (t ≤ t0 + ttl →
        (GetDel t (SetEx t0 d key val ttl) key).1 = some val) ∧
      (t > t0 + ttl →
        (GetDel t (SetEx t0 d key val ttl) key).1 = none ∧
        msLookup (GetDel t (SetEx t0 d key val ttl) key).2 key = none) := by
  intro t0 ttl t d key val
  constructor
  · intro h
    simp [getDel_fresh t0 ttl t d key val h]
  · intro h
    refine ⟨?_, msLookup_getDel_self t (SetEx t0 d key val ttl) key⟩
    have hl : msLookup (SetEx t0 d key val ttl) key
        = some { exp := t0 + ttl, val := val } :=
      msLookup_insert_self d key _
    simp [GetDel, hl, h]

/-- C3 witness: the amended bounds at concrete times 5 and 6 around an
expiry instant of 5. -/
theorem c3_expiry_lazy_witness :
    (GetDel 5 (SetEx 0 [] "k" "v" 5) "k").1 = some "v" ∧
    (GetDel 6 (SetEx 0 [] "k" "v" 5) "k").1 = none ∧
    msLookup (GetDel 6 (SetEx 0 [] "k" "v" 5) "k").2 "k" = none :=
  ⟨(c3_expiry_lazy 0 5 5 [] "k" "v").1 (by decide),
    ((c3_expiry_lazy 0 5 6 [] "k" "v").2 (by decide)).1,
    ((c3_expiry_lazy 0 5 6 [] "k" "v").2 (by decide)).2⟩

/-!
Serialization channel: StartHandler stores the start request via
json.Marshal and RedirectHandler recovers it via json.Unmarshal of the
same struct type. The encoding below models that channel as a concrete
computable pair (encode, decode) with decode an inverse of encode, and
decode returning `none` on strings that are not a valid encoding
(mirroring the Unmarshal error branch of RedirectHandler).
-/

/-- Escape one character of a field: the separator and the escape
character are preceded by a backslash. -/
def escChar (c : Char) : List Char :=
  if c = '\\' ∨ c = ';' then ['\\', c] else [c]

/-- Escape a whole field. -/
def escapeCs : List Char → List Char
  | [] => []
  | c :: cs => escChar c ++ escapeCs cs

/-- Join escaped fields with the separator. -/
def joinCs : List (List Char) → List Char
  | [] => []
  | x :: xs =>
    match xs with
    | [] => escapeCs x
    | _ :: _ => escapeCs x ++ ';' :: joinCs xs

/-- Split on unescaped separators, unescaping as it goes; `acc` holds the
current field reversed. -/
def splitCsAux : List Char → List Char → List (List Char)
  | [], acc => [acc.reverse]
  | ['\\'], acc => [acc.reverse]
  | '\\' :: d :: rest2, acc => splitCsAux rest2 (d :: acc)
  | c :: rest, acc =>
    if c = ';' then acc.reverse :: splitCsAux rest []
    else splitCsAux rest (c :: acc)

/-- Join a nonempty list of string fields into one string. -/
def joinS (xs : List String) : String :=
  ⟨joinCs (xs.map String.data)⟩

/-- Split a string back into its fields. -/
def splitS (s : String) : List String :=
  (splitCsAux s.data []).map String.mk

theorem splitCsAux_escape_nil (x acc : List Char) :
    splitCsAux (escapeCs x) acc = [acc.reverse ++ x] := by
  induction x generalizing acc with
  | nil => simp [escapeCs, splitCsAux]
  | cons c cs ih =>
    by_cases h : c = '\\' ∨ c = ';'
    · have h1 : escapeCs (c :: cs) = '\\' :: c :: escapeCs cs := by
        simp [escapeCs, escChar, h]
      rw [h1]
      simp [splitCsAux, ih (c :: acc)]
    · push_neg at h
      have h1 : escapeCs (c :: cs) = c :: escapeCs cs := by
        simp [escapeCs, escChar, h.1, h.2]
      rw [h1]
      rcases Classical.em (∃ d rest2, escapeCs cs = d :: rest2) with he | he
      · obtain ⟨d, rest2, hd⟩ := he
        rw [hd]
        rw [show splitCsAux (c :: d :: rest2) acc
            = splitCsAux (d :: rest2) (c :: acc) from ?_]
        · rw [← hd, ih (c :: acc)]
          simp
        · simp [splitCsAux, h.1, h.2]
      · have hnil : escapeCs cs = [] := by
          cases hc : escapeCs cs with
          | nil => rfl
          | cons d r => exact absurd ⟨d, r, hc⟩ he
        rw [hnil]
        have := ih (c :: acc)
        rw [hnil] at this
        simp [splitCsAux, h.1, h.2] at this ⊢
        simpa using this

theorem splitCsAux_esc (c : Char) (l acc : List Char) :
    splitCsAux ('\\' :: c :: l) acc = splitCsAux l (c :: acc) := by
  simp [splitCsAux]

theorem splitCsAux_sep (l acc : List Char) :
    splitCsAux (';' :: l) acc = acc.reverse :: splitCsAux l [] := by
  cases l <;> simp [splitCsAux]

theorem splitCsAux_cons_ne (c : Char) (l acc : List Char)
    (h1 : c ≠ '\\') (h2 : c ≠ ';') :
    splitCsAux (c :: l) acc = splitCsAux l (c :: acc) := by
  cases l <;> simp [splitCsAux, h1, h2]

theorem splitCsAux_escape_cons (x : List Char) (rest acc : List Char) :
    splitCsAux (escapeCs x ++ ';' :: rest) acc
      = (acc.reverse ++ x) :: splitCsAux rest [] := by
  induction x generalizing acc with
  | nil => simp [escapeCs, splitCsAux_sep]
  | cons c cs ih =>
    by_cases h : c = '\\' ∨ c = ';'
    · have h1 : escapeCs (c :: cs) ++ ';' :: rest
          = '\\' :: c :: (escapeCs cs ++ ';' :: rest) := by
        simp [escapeCs, escChar, h]
      rw [h1, splitCsAux_esc, ih (c :: acc)]
      simp
    · push_neg at h
      have h1 : escapeCs (c :: cs) ++ ';' :: rest
          = c :: (escapeCs cs ++ ';' :: rest) := by
        simp [escapeCs, escChar, h.1, h.2]
      rw [h1, splitCsAux_cons_ne c _ acc h.1 h.2, ih (c :: acc)]
      simp

theorem splitCs_joinCs (x : List Char) (xs : List (List Char)) :
    splitCsAux (joinCs (x :: xs)) [] = x :: xs := by
  induction xs generalizing x with
  | nil => simp [joinCs, splitCsAux_escape_nil]
  | cons y ys ih =>
    have h1 : joinCs (x :: y :: ys) = escapeCs x ++ ';' :: joinCs (y :: ys) := by
      simp [joinCs]
    rw [h1, splitCsAux_escape_cons, ih y]
    simp

theorem stringMk_data (s : String) : String.mk s.data = s := rfl

theorem splitS_joinS (x : String) (xs : List String) :
    splitS (joinS (x :: xs)) = x :: xs := by
  show (splitCsAux (joinCs (x.data :: xs.map String.data)) []).map String.mk
      = x :: xs
  rw [splitCs_joinCs]
  simp only [List.map_map, List.map_cons, stringMk_data]
  have hid : String.mk ∘ String.data = id := funext fun s => stringMk_data s
  rw [hid, List.map_id]

/-- Go struct `manifest` (handlers file): the typed representation of the
caller-supplied manifest; HookAttributes is an opaque raw JSON fragment,
modelled as a string. -/
structure Manifest where
  Name : String
  URL : String
  HookAttributes : String
  RedirectURL : String
  CallbackURLs : List String
  Description : String
  Public : Bool
  DefaultEvents : List String
  DefaultPermissions : List (String × String)
deriving DecidableEq, Repr

/-- Go struct `startRequest`: the decoded POST /start body plus the state
token slot filled in by StartHandler before storage. Field names follow
the JSON tags because the Go field named Manifest would clash with the
Manifest type in Lean. -/
structure StartRequest where
  manifest : Manifest
  target_type : String
  target_slug : String
  host : String
  token : String
deriving DecidableEq, Repr

/-- Boolean field encoding. -/
def encBool (b : Bool) : String :=
  if b then "t" else "f"

/-- Boolean field decoding; fails on anything else. -/
def decBool (s : String) : Option Bool :=
  if s = "t" then some true else if s = "f" then some false else none

/-- List-of-strings field: a marker item followed by the elements, so the
empty list stays distinguishable. -/
def encList (xs : List String) : String :=
  joinS ("L" :: xs)

/-- Inverse of encList. -/
def decList (s : String) : List String :=
  (splitS s).tail

/-- String-pair field (one DefaultPermissions entry). -/
def encPair (p : String × String) : String :=
  joinS [p.1, p.2]

/-- Inverse of encPair. -/
def decPair (s : String) : String × String :=
  match splitS s with
  | [a, b] => (a, b)
  | _ => ("", "")

/-- Serialization of the manifest struct (models json.Marshal of the Go
`manifest` struct: all nine fields, in declaration order). -/
def encodeManifest (m : Manifest) : String :=
  joinS [m.Name, m.URL, m.HookAttributes, m.RedirectURL,
    encList m.CallbackURLs, m.Description, encBool m.Public,
    encList m.DefaultEvents, encList (m.DefaultPermissions.map encPair)]

/-- Deserialization of a manifest struct (models json.Unmarshal; returns
none on a string that is not a valid encoding). -/
def decodeManifest (s : String) : Option Manifest :=
  match splitS s with
  | [n, u, h, r, cbs, de, p, ev, perms] =>
    match decBool p with
    | none => none
    | some pb =>
      some ⟨n, u, h, r, decList cbs, de, pb, decList ev,
        (decList perms).map decPair⟩
  | _ => none

/-- Serialization of the full start request (models json.Marshal of the
Go `startRequest` struct, the payload stored by StartHandler). -/
def encodeStartRequest (r : StartRequest) : String :=
  joinS [encodeManifest r.manifest, r.target_type, r.target_slug, r.host, r.token]

/-- Deserialization of a start request (models the json.Unmarshal done by
RedirectHandler; returns none on an invalid encoding, which sends
RedirectHandler into its 500 branch). -/
def decodeStartRequest (s : String) : Option StartRequest :=
  match splitS s with
  | [m, tt, ts, h, tk] => (decodeManifest m).map fun mm => ⟨mm, tt, ts, h, tk⟩
  | _ => none

theorem decList_encList (xs : List String) : decList (encList xs) = xs := by
  simp [decList, encList, splitS_joinS]

theorem decPair_encPair (p : String × String) : decPair (encPair p) = p := by
  simp [decPair, encPair, splitS_joinS]

theorem decBool_encBool (b : Bool) : decBool (encBool b) = some b := by
  cases b <;> simp [decBool, encBool]

theorem decodeManifest_encodeManifest (m : Manifest) :
    decodeManifest (encodeManifest m) = some m := by
  have hsplit := splitS_joinS m.Name [m.URL, m.HookAttributes, m.RedirectURL,
    encList m.CallbackURLs, m.Description, encBool m.Public,
    encList m.DefaultEvents, encList (m.DefaultPermissions.map encPair)]
  simp only [encodeManifest, decodeManifest, hsplit, decBool_encBool,
    decList_encList, List.map_map]
  have hid : decPair ∘ encPair = id := funext fun p => decPair_encPair p
  rw [hid, List.map_id]

theorem decodeStartRequest_encodeStartRequest (r : StartRequest) :
    decodeStartRequest (encodeStartRequest r) = some r := by
  have hsplit := splitS_joinS (encodeManifest r.manifest)
    [r.target_type, r.target_slug, r.host, r.token]
  simp only [encodeStartRequest, decodeStartRequest, hsplit,
    decodeManifest_encodeManifest]
  rfl

/-- Key namespace of initiation records: StartHandler stores under
"i:"+initialToken and RedirectHandler consumes "i:"+key. -/
def iKey (t : String) : String :=
  "i:" ++ t

/-- Key namespace of code records: CallbackHandler stores under
"s:"+state and CodeHandler consumes "s:"+key. -/
def sKey (t : String) : String :=
  "s:" ++ t

/-- Outcome of one store operation as seen by a handler: a value, the
redis.Nil NotFound outcome, or any other (transport/operational) error. -/
inductive StoreResult (α : Type) where
  | ok (a : α)
  | notFound
  | failure
deriving DecidableEq, Repr

/-- Result of the in-memory GetDel as a StoreResult: memStore only ever
returns a value or redis.Nil, never a transport failure. -/
def toResult : Option String → StoreResult String
  | none => StoreResult.notFound
  | some v => StoreResult.ok v

/-- actionURL: the form target, one of two shapes chosen by comparing the
target type against "org"; every other value takes the else branch. -/
def actionURL (data : StartRequest) : String :=
  if data.target_type = "org" then
    "https://" ++ data.host ++ "/organizations/" ++ data.target_slug
      ++ "/settings/apps/new?state=" ++ data.token
  else
    "https://" ++ data.host ++ "/settings/apps/new?state=" ++ data.token

/-- Observable outcome of one StartHandler invocation: HTTP status, the
SetEx call reached (key, payload, ttl) if any, and the response body
fields (key, url) if any. -/
structure StartOutcome where
  status : Nat
  setexCall : Option (String × String × Nat)
  response : Option (String × String)
deriving DecidableEq, Repr

/-- StartHandler: `decoded` is the result of decoding the request body
(none models a JSON parse error), `tok1` and `tok2` the two token() calls
in source order, `setexFails` whether store.SetEx returns an error. The
json.Marshal of the request is modelled by the total encodeStartRequest
(marshalling this struct type cannot fail). TTL 10 minutes = 600 s. -/
def StartHandler (baseURL : String) (decoded : Option StartRequest)
    (tok1 tok2 : Except Unit String) (setexFails : Bool) : StartOutcome :=
  match decoded with
  | none => { status := 400, setexCall := none, response := none }
  | some request0 =>
    match tok1 with
    | Except.error _ => { status := 500, setexCall := none, response := none }
    | Except.ok initialToken =>
      match tok2 with
      | Except.error _ => { status := 500, setexCall := none, response := none }
      | Except.ok stateToken =>
        let request : StartRequest :=
          { request0 with
            token := stateToken,
            manifest := { request0.manifest with
              RedirectURL := baseURL ++ "/callback" } }
        let payload := encodeStartRequest request
        let call := some (iKey initialToken, payload, 600)
        if setexFails then { status := 500, setexCall := call, response := none }
        else { status := 200, setexCall := call,
               response := some (stateToken, baseURL ++ "/redirect/" ++ initialToken) }

/-- Observable outcome of one RedirectHandler invocation: HTTP status and,
on success, the rendered form action URL and manifest input value. -/
structure RedirectOutcome where
  status : Nat
  action : Option String
  manifestValue : Option String
deriving DecidableEq, Repr

/-- RedirectHandler, given the outcome of store.GetDel on "i:"+key:
redis.Nil yields 404, any other error 500; on success the payload is
unmarshalled (failure yields 500) and the form is rendered with the
action URL and the re-marshalled manifest. -/
def RedirectHandler (getDelRes : StoreResult String) : RedirectOutcome :=
  match getDelRes with
  | StoreResult.notFound => { status := 404, action := none, manifestValue := none }
  | StoreResult.failure => { status := 500, action := none, manifestValue := none }
  | StoreResult.ok raw =>
    match decodeStartRequest raw with
    | none => { status := 500, action := none, manifestValue := none }
    | some m =>
      { status := 200, action := some (actionURL m),
        manifestValue := some (encodeManifest m.manifest) }

/-- RedirectHandler composed with the in-memory store: consumes the
record under "i:"+key via GetDel and returns the updated store. -/
def RedirectHandlerMem (now : Nat) (d : MemStore) (key : String) :
    RedirectOutcome × MemStore :=
  let r := GetDel now d (iKey key)
  (RedirectHandler (toResult r.1), r.2)

/-- CallbackHandler: empty state or code is rejected with 400 before any
store interaction; otherwise the code is stored under "s:"+state with TTL
5 minutes = 300 s; a SetEx error yields 400 (http.StatusBadRequest in the
source), success redirects (302) to /done. Returns the status and the
SetEx call reached (key, value, ttl) if any. -/
def CallbackHandler (state code : String) (setexFails : Bool) :
    Nat × Option (String × String × Nat) :=
  if state = "" ∨ code = "" then (400, none)
  else
    let call := some (sKey state, code, 300)
    if setexFails then (400, call) else (302, call)

/-- CallbackHandler composed with the in-memory store (whose SetEx never
fails). -/
def CallbackHandlerMem (now : Nat) (d : MemStore) (state code : String) :
    Nat × MemStore :=
  match CallbackHandler state code false with
  | (st, none) => (st, d)
  | (st, some (k, v, ttl)) => (st, SetEx now d k v ttl)

/-- Response body of CodeHandler on success, exactly as built by
fmt.Sprintf in the source. -/
def codeBody (code : String) : String :=
  "\x7b\"code\": \"" ++ code ++ "\"\x7d"

/-- Response body of CodeHandler when the key is unknown, expired or
consumed. -/
def codeNotFoundBody : String :=
  "\x7b\"error\": \"failed to find code for the given key\"\x7d"

/-- Response body of CodeHandler on a store failure (kept verbatim from
the source, including its missing opening brace). -/
def codeFailureBody : String :=
  "\"error\": \"failed to fetch code\"\x7d"

/-- CodeHandler, given the outcome of store.GetDel on "s:"+key: redis.Nil
yields 404, any other error 500, success 200 with the code interpolated
into the JSON body. -/
def CodeHandler (getDelRes : StoreResult String) : Nat × String :=
  match getDelRes with
  | StoreResult.notFound => (404, codeNotFoundBody)
  | StoreResult.failure => (500, codeFailureBody)
  | StoreResult.ok code => (200, codeBody code)

/-- CodeHandler composed with the in-memory store: consumes the record
under "s:"+key via GetDel and returns the updated store. -/
def CodeHandlerMem (now : Nat) (d : MemStore) (key : String) :
    (Nat × String) × MemStore :=
  let r := GetDel now d (sKey key)
  (CodeHandler (toResult r.1), r.2)

/-- Lowercase hexadecimal digit for a nibble (encoding/hex alphabet). -/
def hexDigit (n : Nat) : Char :=
  if n < 10 then Char.ofNat (48 + n) else Char.ofNat (87 + n)

/-- Hex encoding of one byte, high nibble first. -/
def byteHex (b : Nat) : List Char :=
  [hexDigit (b / 16), hexDigit (b % 16)]

/-- hex.EncodeToString over a byte slice. -/
def hexEncode (bytes : List Nat) : String :=
  ⟨(bytes.map byteHex).flatten⟩

/-- token(): reads 32 bytes from the crypto/rand source (modelled as the
`randRead` argument: an error, or the 32 bytes the source produced) and
hex-encodes them; a source failure is returned as an error with no
token. -/
def token (randRead : Except Unit (List Nat)) : Except Unit String :=
  match randRead with
  | Except.error e => Except.error e
  | Except.ok bytes => Except.ok (hexEncode bytes)

/-- C5: the rendered form action URL is the organization shape exactly
when the stored target_type equals "org", and the individual-account
shape for every other target_type value. -/
theorem c5_action_url_shapes :
    ∀ (data : StartRequest),
      (data.target_type = "org" →
        actionURL data = "https://" ++ data.host ++ "/organizations/"
          ++ data.target_slug ++ "/settings/apps/new?state=" ++ data.token) ∧
      (data.target_type ≠ "org" →
        actionURL data = "https://" ++ data.host
          ++ "/settings/apps/new?state=" ++ data.token) := by
  intro data
  constructor
  · intro h
    simp [actionURL, h]
  · intro h
    simp [actionURL, h]

/-- C5 witness: both URL shapes at concrete requests, including a
target_type outside the enumerated set taking the individual shape. -/
theorem c5_action_url_shapes_witness :
    actionURL ⟨⟨"", "", "", "", [], "", false, [], []⟩, "org", "acme", "github.example", "S"⟩
      = "https://github.example/organizations/acme/settings/apps/new?state=S" ∧
    actionURL ⟨⟨"", "", "", "", [], "", false, [], []⟩, "banana", "alice", "github.example", "S"⟩
      = "https://github.example/settings/apps/new?state=S" := by
  constructor
  · rw [(c5_action_url_shapes
      ⟨⟨"", "", "", "", [], "", false, [], []⟩, "org", "acme", "github.example", "S"⟩).1 rfl]
    decide
  · rw [(c5_action_url_shapes
      ⟨⟨"", "", "", "", [], "", false, [], []⟩, "banana", "alice", "github.example", "S"⟩).2
      (by decide)]
    decide

/-- C6: a Start body that fails JSON parsing is rejected with 400 and a
failed token generation aborts with 500, in both cases with no SetEx
reached; a Callback missing state or code is rejected with 400 with no
SetEx reached. -/
theorem c6_fail_fast :
    (∀ (b : String) (t1 t2 : Except Unit String) (sf : Bool),
      StartHandler b none t1 t2 sf
        = { status := 400, setexCall := none, response := none }) ∧
    (∀ (b : String) (req : StartRequest) (t2 : Except Unit String) (sf : Bool),
      StartHandler b (some req) (Except.error ()) t2 sf
        = { status := 500, setexCall := none, response := none }) ∧
    (∀ (b : String) (req : StartRequest) (i : String) (sf : Bool),
      StartHandler b (some req) (Except.ok i) (Except.error ()) sf
        = { status := 500, setexCall := none, response := none }) ∧
    (∀ (state code : String) (sf : Bool),
      state = "" ∨ code = "" → CallbackHandler state code sf = (400, none)) := by
  refine ⟨fun b t1 t2 sf => rfl, fun b req t2 sf => rfl, fun b req i sf => rfl,
    fun state code sf h => ?_⟩
  unfold CallbackHandler
  rw [if_pos h]

/-- C6 witness: the parse-failure, token-failure and missing-parameter
rejections at concrete inputs. -/
theorem c6_fail_fast_witness :
    StartHandler "b" none (Except.ok "x") (Except.ok "y") false
      = { status := 400, setexCall := none, response := none } ∧
    StartHandler "b" (some ⟨⟨"", "", "", "", [], "", false, [], []⟩, "user", "a", "h", ""⟩)
        (Except.error ()) (Except.ok "y") false
      = { status := 500, setexCall := none, response := none } ∧
    CallbackHandler "" "c" false = (400, none) :=
  ⟨c6_fail_fast.1 "b" (Except.ok "x") (Except.ok "y") false,
    c6_fail_fast.2.1 "b" ⟨⟨"", "", "", "", [], "", false, [], []⟩, "user", "a", "h", ""⟩
      (Except.ok "y") false,
    c6_fail_fast.2.2.2 "" "c" false (Or.inl rfl)⟩

/-- C7 counterexample: on a store failure the Callback phase responds
400, not 500 as the claim requires for every phase. -/
theorem c7_callback_counterexample :
    (CallbackHandler "s" "c" true).1 = 400 ∧ ¬ (CallbackHandler "s" "c" true).1 = 500 := by
  decide

/-- C7 amended: a store failure aborts the phase with 500 in Start,
Redirect and Code, but Callback responds 400 on a SetEx failure. -/
theorem c7_store_failure_status :
    (∀ (b : String) (req : StartRequest) (i s : String),
      (StartHandler b (some req) (Except.ok i) (Except.ok s) true).status = 500) ∧
    (RedirectHandler StoreResult.failure).status = 500 ∧
    (CodeHandler StoreResult.failure).1 = 500 ∧
    (∀ (state code : String), state ≠ "" → code ≠ "" →
      (CallbackHandler state code true).1 = 400) := by
  refine ⟨fun b req i s => rfl, rfl, rfl, fun state code hs hc => ?_⟩
  simp [CallbackHandler, hs, hc]

/-- C7 witness: the amended statuses at concrete inputs. -/
theorem c7_store_failure_status_witness :
    (StartHandler "b" (some ⟨⟨"", "", "", "", [], "", false, [], []⟩, "user", "a", "h", ""⟩)
        (Except.ok "i") (Except.ok "s") true).status = 500 ∧
    (CallbackHandler "s" "c" true).1 = 400 :=
  ⟨c7_store_failure_status.1 "b" ⟨⟨"", "", "", "", [], "", false, [], []⟩, "user", "a", "h", ""⟩
      "i" "s",
    c7_store_failure_status.2.2.2 "s" "c" (by decide) (by decide)⟩

/-- Concrete start request used to exhibit the manifest rewrite: its
manifest carries a caller-chosen redirect URL. -/
def c4Req : StartRequest :=
  ⟨⟨"demo", "https://caller.example", "", "https://caller.example/cb",
    [], "", false, [], []⟩, "user", "alice", "github.example", ""⟩

/-- The record StartHandler actually stores for c4Req. -/
def c4Stored : StartRequest :=
  { c4Req with
    token := "bb",
    manifest := { c4Req.manifest with
      RedirectURL := "https://gamf.example" ++ "/callback" } }

/-- C4 counterexample: at a concrete Start request whose manifest carries
its own redirect_url, the payload stored by StartHandler and rendered by
RedirectHandler is not the caller manifest: the handler rewrites the
redirect_url field before storing. -/
theorem c4_manifest_counterexample :
    ((StartHandler "https://gamf.example" (some c4Req) (Except.ok "aa")
        (Except.ok "bb") false).setexCall.map
      fun call => (RedirectHandler (StoreResult.ok call.2.1)).manifestValue)
      ≠ some (some (encodeManifest c4Req.manifest)) := by
  intro h
  have hstored : (StartHandler "https://gamf.example" (some c4Req) (Except.ok "aa")
      (Except.ok "bb") false).setexCall
      = some (iKey "aa", encodeStartRequest c4Stored, 600) := rfl
  rw [hstored] at h
  have hred : RedirectHandler (StoreResult.ok (encodeStartRequest c4Stored))
      = { status := 200, action := some (actionURL c4Stored),
          manifestValue := some (encodeManifest c4Stored.manifest) } := by
    simp [RedirectHandler, decodeStartRequest_encodeStartRequest]
  simp only [Option.map, hred] at h
  have h2 : encodeManifest c4Stored.manifest = encodeManifest c4Req.manifest := by
    simpa using h
  have h3 := congrArg decodeManifest h2
  rw [decodeManifest_encodeManifest, decodeManifest_encodeManifest] at h3
  have h4 : c4Stored.manifest = c4Req.manifest := by
    simpa using h3
  have h5 := congrArg Manifest.RedirectURL h4
  revert h5
  decide

/-- The record StartHandler builds for storage from a decoded request and
the state token: the state token is filled in and the manifest redirect
URL is pointed back at this service. -/
def storedRequest (baseURL : String) (req : StartRequest) (s : String) : StartRequest :=
  { req with
    token := s,
    manifest := { req.manifest with
      RedirectURL := baseURL ++ "/callback" } }

/-- C4 amended: for every Start request, the stored initiation record is
the caller request with exactly the redirect_url of its manifest replaced
by baseURL/callback (and the state token filled in), and RedirectHandler
renders exactly that stored manifest into the form. -/
theorem c4_manifest_passthrough :
    ∀ (baseURL : String) (req : StartRequest) (i s : String),
      (StartHandler baseURL (some req) (Except.ok i) (Except.ok s) false).setexCall
        = some (iKey i, encodeStartRequest (storedRequest baseURL req s), 600) ∧
      RedirectHandler (StoreResult.ok (encodeStartRequest (storedRequest baseURL req s)))
        = { status := 200,
            action := some (actionURL (storedRequest baseURL req s)),
            manifestValue := some (encodeManifest (storedRequest baseURL req s).manifest) } ∧
      (storedRequest baseURL req s).manifest
        = { req.manifest with RedirectURL := baseURL ++ "/callback" } := by
  intro baseURL req i s
  refine ⟨rfl, ?_, rfl⟩
  simp [RedirectHandler, decodeStartRequest_encodeStartRequest]

theorem codeHandlerMem_absent (now : Nat) (d : MemStore) (key : String)
    (h : msLookup d (sKey key) = none) :
    (CodeHandlerMem now d key).1 = (404, codeNotFoundBody) := by
  simp [CodeHandlerMem, getDel_absent now d (sKey key) h, toResult, CodeHandler]

theorem callbackHandlerMem_store (t : Nat) (d : MemStore) (state code : String)
    (hs : state ≠ "") (hc : code ≠ "") :
    CallbackHandlerMem t d state code = (302, SetEx t d (sKey state) code 300) := by
  simp [CallbackHandlerMem, CallbackHandler, hs, hc]

/-- C8: a code stored by Callback under state S is returned by the Code
phase for key S, before expiry, as status 200 with body containing
exactly that code; an unknown, expired or already consumed key yields 404
with the JSON error body; a store failure yields 500. -/
theorem c8_code_retrieval :
    (∀ (t1 t2 : Nat) (d : MemStore) (state code : String),
      state ≠ "" → code ≠ "" → t2 ≤ t1 + 300 →
      (CallbackHandlerMem t1 d state code).1 = 302 ∧
      (CodeHandlerMem t2 (CallbackHandlerMem t1 d state code).2 state).1
        = (200, codeBody code)) ∧
    (∀ (now : Nat) (d : MemStore) (key : String),
      msLookup d (sKey key) = none →
      (CodeHandlerMem now d key).1 = (404, codeNotFoundBody)) ∧
    (∀ (now : Nat) (d : MemStore) (key : String) (v : MValue),
      msLookup d (sKey key) = some v → now > v.exp →
      (CodeHandlerMem now d key).1 = (404, codeNotFoundBody)) ∧
    (∀ (t t2 : Nat) (d : MemStore) (key : String),
      (CodeHandlerMem t d key).1.1 = 200 →
      (CodeHandlerMem t2 (CodeHandlerMem t d key).2 key).1
        = (404, codeNotFoundBody)) ∧
    (CodeHandler StoreResult.failure).1 = 500 := by
  refine ⟨fun t1 t2 d state code hs hc ht => ?_,
    fun now d key h => codeHandlerMem_absent now d key h,
    fun now d key v h hexp => ?_, fun t t2 d key _ => ?_, rfl⟩
  · rw [callbackHandlerMem_store t1 d state code hs hc]
    refine ⟨rfl, ?_⟩
    simp [CodeHandlerMem, getDel_fresh t1 300 t2 d (sKey state) code ht,
      toResult, CodeHandler]
  · simp [CodeHandlerMem, GetDel, h, hexp, toResult, CodeHandler]
  · refine codeHandlerMem_absent t2 (CodeHandlerMem t d key).2 key ?_
    simpa [CodeHandlerMem] using msLookup_getDel_self t d (sKey key)

/-- C8 witness: the full Callback then Code round trip, the unknown key,
the expired key and the already-consumed key, at concrete inputs. -/
theorem c8_code_retrieval_witness :
    ((CallbackHandlerMem 0 [] "S" "XYZ").1 = 302 ∧
      (CodeHandlerMem 1 (CallbackHandlerMem 0 [] "S" "XYZ").2 "S").1
        = (200, codeBody "XYZ")) ∧
    (CodeHandlerMem 0 [] "S").1 = (404, codeNotFoundBody) ∧
    (CodeHandlerMem 6 (SetEx 0 [] (sKey "S") "XYZ" 5) "S").1
      = (404, codeNotFoundBody) ∧
    (CodeHandlerMem 2 (CodeHandlerMem 1 (SetEx 0 [] (sKey "S") "XYZ" 5) "S").2 "S").1
      = (404, codeNotFoundBody) :=
  ⟨c8_code_retrieval.1 0 1 [] "S" "XYZ" (by decide) (by decide) (by decide),
    c8_code_retrieval.2.1 0 [] "S" rfl,
    c8_code_retrieval.2.2.1 6 (SetEx 0 [] (sKey "S") "XYZ" 5) "S"
      { exp := 5, val := "XYZ" } (by decide) (by decide),
    c8_code_retrieval.2.2.2.1 1 2 (SetEx 0 [] (sKey "S") "XYZ" 5) "S" (by decide)⟩

theorem hexDigit_mem (n : Nat) (h : n < 16) :
    hexDigit n ∈ "0123456789abcdef".data := by
  interval_cases n <;> decide

theorem hexEncode_data (bytes : List Nat) :
    (hexEncode bytes).data = (bytes.map byteHex).flatten := rfl

theorem hexEncode_length (bytes : List Nat) :
    (hexEncode bytes).length = 2 * bytes.length := by
  show (bytes.map byteHex).flatten.length = 2 * bytes.length
  induction bytes with
  | nil => rfl
  | cons b bs ih =>
    simp [byteHex, ih]
    omega

/-- C9: token() succeeds exactly when the random source does; on success
it returns the hex encoding of the 32 source bytes, a 64-character string
over the lowercase hexadecimal alphabet. -/
theorem c9_token_properties :
    (∀ (bytes : List Nat), bytes.length = 32 → (∀ b ∈ bytes, b < 256) →
      ∃ s, token (Except.ok bytes) = Except.ok s ∧ s = hexEncode bytes ∧
        s.length = 64 ∧ ∀ c ∈ s.data, c ∈ "0123456789abcdef".data) ∧
    (∀ (randRead : Except Unit (List Nat)),
      (∃ e, token randRead = Except.error e) ↔ (∃ e, randRead = Except.error e)) := by
  constructor
  · intro bytes hlen hbound
    refine ⟨hexEncode bytes, rfl, rfl, by rw [hexEncode_length, hlen], ?_⟩
    intro c hc
    rw [hexEncode_data] at hc
    obtain ⟨l, hl, hcl⟩ := List.mem_flatten.mp hc
    obtain ⟨b, hb, rfl⟩ := List.mem_map.mp hl
    have hb256 := hbound b hb
    have hdiv : b / 16 < 16 := by omega
    have hmod : b % 16 < 16 := Nat.mod_lt _ (by norm_num)
    simp only [byteHex, List.mem_cons, List.not_mem_nil, or_false] at hcl
    rcases hcl with h1 | h1
    · exact h1 ▸ hexDigit_mem _ hdiv
    · exact h1 ▸ hexDigit_mem _ hmod
  · intro randRead
    cases randRead with
    | error e => simp [token]
    | ok bs => simp [token]

/-- C9 witness: a 32-byte input produces a 64-character lowercase hex
token, and a failing source produces an error. -/
theorem c9_token_properties_witness :
    (∃ s, token (Except.ok (List.replicate 32 0)) = Except.ok s ∧
      s = hexEncode (List.replicate 32 0) ∧
      s.length = 64 ∧ ∀ c ∈ s.data, c ∈ "0123456789abcdef".data) ∧
    ((∃ e, token (Except.error ()) = Except.error e) ↔
      (∃ e, (Except.error () : Except Unit (List Nat)) = Except.error e)) :=
  ⟨c9_token_properties.1 (List.replicate 32 0) (by decide) (by decide),
    c9_token_properties.2 (Except.error ())⟩

theorem iKey_ne_sKey (a b : String) : iKey a ≠ sKey b := by
  intro h
  have h2 := congrArg String.data h
  rw [show (iKey a).data = 'i' :: ':' :: a.data from rfl,
    show (sKey b).data = 's' :: ':' :: b.data from rfl] at h2
  simp at h2

/-- C10: the two token namespaces are disjoint: no initiation key ever
equals a code key, consuming an initiation key never disturbs any code
record and vice versa, and the handlers do use exactly these namespaces
(Start stores under an initiation key, Callback under a code key). -/
theorem c10_namespace_disjoint :
    (∀ (a b : String), iKey a ≠ sKey b) ∧
    (∀ (t : Nat) (d : MemStore) (a b : String),
      msLookup (RedirectHandlerMem t d a).2 (sKey b) = msLookup d (sKey b)) ∧
    (∀ (t : Nat) (d : MemStore) (a b : String),
      msLookup (CodeHandlerMem t d a).2 (iKey b) = msLookup d (iKey b)) ∧
    (∀ (b : String) (req : StartRequest) (i s : String) (sf : Bool),
      ∃ p, (StartHandler b (some req) (Except.ok i) (Except.ok s) sf).setexCall
        = some (iKey i, p, 600)) ∧
    (∀ (state code : String), state ≠ "" → code ≠ "" →
      (CallbackHandler state code false).2 = some (sKey state, code, 300)) := by
  refine ⟨iKey_ne_sKey, fun t d a b => ?_, fun t d a b => ?_,
    fun b req i s sf => ?_, fun state code hs hc => ?_⟩
  · exact msLookup_getDel_ne t d (iKey a) (sKey b) fun hx => iKey_ne_sKey a b hx.symm
  · exact msLookup_getDel_ne t d (sKey a) (iKey b) fun hx => iKey_ne_sKey b a hx
  · cases sf with
    | true => exact ⟨encodeStartRequest (storedRequest b req s), rfl⟩
    | false => exact ⟨encodeStartRequest (storedRequest b req s), rfl⟩
  · simp [CallbackHandler, hs, hc]

/-- C10 witness: disjointness and the handler key shapes at concrete
tokens, including a pair of textually equal tokens. -/
theorem c10_namespace_disjoint_witness :
    iKey "t0" ≠ sKey "t0" ∧
    (CallbackHandler "S" "c" false).2 = some (sKey "S", "c", 300) :=
  ⟨c10_namespace_disjoint.1 "t0" "t0",
    c10_namespace_disjoint.2.2.2.2 "S" "c" (by decide) (by decide)⟩
